import Mathlib

/-!
Verification development for the `otelcolconvert` core of the repository
(`internal/converter/internal/otelcolconvert/otelcolconvert.go`).

The Go source is shallowly embedded below.  Pure functions of the source file
(`filterIDs`, `validateNoDuplicateReceivers`, `buildConverterTable`,
`getFactories`, the dispatch loops of `AppendConfig` and the control flow of
`Convert`) are translated one-to-one into executable Lean definitions.
External collaborators (the YAML reader, `cfg.Validate`, the converter
strategy library, `common.ValidateNodes`, `builder.File.WriteTo`,
`common.PrettyPrint`) are modelled as explicit oracle parameters, and the
pipeline-grouping routine — which lives outside the provided source — is
modelled from the specification text.

Go `panic` calls are modelled as the `.error` case of `Except String`,
which is distinct from the accumulated user-facing diagnostics.
-/

/-- Severity levels of the `diag` collaborator package; the spec requires at
least a critical level that suppresses output. -/
inductive Severity where
  | info
  | warn
  | error
  | critical
deriving DecidableEq

/-- One diagnostic: a (severity, message) pair. -/
structure Diag where
  severity : Severity
  message : String
deriving DecidableEq

/-- `diag.Diagnostics`: an ordered, accumulating list of diagnostics. -/
abbrev Diagnostics := List Diag

/-- `component.ID`: a component type plus an instance name. -/
structure ID where
  typ : String
  name : String
deriving DecidableEq

/-- `component.ID.String()`: `type` when the name is empty, otherwise
`type/name`. -/
def idString (id : ID) : String :=
  if id.name = "" then id.typ else id.typ ++ "/" ++ id.name

/-- `component.Kind`: the role of a component. -/
inductive Kind where
  | receiver
  | processor
  | exporter
  | connector
  | extension
deriving DecidableEq

/-- `converterKey`: registry lookup key, a (role, type) pair; the instance
name is deliberately absent. -/
structure ConverterKey where
  kind : Kind
  typ : String
deriving DecidableEq

/-- The factory descriptor of a converter strategy.  In Go this is the
dynamic type of `conv.Factory()`; the `unknown` case models a value whose
dynamic type is none of the five factory interfaces. -/
inductive Factory where
  | receiver (typ : String)
  | processor (typ : String)
  | exporter (typ : String)
  | connector (typ : String)
  | extension (typ : String)
  | unknown
deriving DecidableEq

/-- `fact.Type()` for each factory shape (never called on `unknown` in the
source, so the value there is immaterial). -/
def Factory.typeName : Factory → String
  | .receiver t => t
  | .processor t => t
  | .exporter t => t
  | .connector t => t
  | .extension t => t
  | .unknown => ""

/-- The list of kinds a factory registers under, exactly as in the `switch`
of `buildConverterTable`: a connector factory yields three kinds; an unknown
factory shape yields no kinds (the loop body is skipped silently). -/
def factoryKinds : Factory → List Kind
  | .receiver _ => [.receiver]
  | .processor _ => [.processor]
  | .exporter _ => [.exporter]
  | .connector _ => [.connector, .exporter, .receiver]
  | .extension _ => [.extension]
  | .unknown => []

/-- A node appended to the output graph (`builder.File`); collaborator
detail, kept abstract as a (block name, label) pair. -/
structure OutputBlock where
  name : String
  label : String
deriving DecidableEq

/-- A conversion strategy (`ComponentConverter`).  `ConvertAndAppend` is an
external collaborator: it is modelled by two oracle fields giving, for each
component instance, the diagnostics it returns and the blocks it appends. -/
structure ComponentConverter where
  factory : Factory
  inputComponentName : String
  convDiags : Kind × ID → Diagnostics
  appendsOut : Kind × ID → List OutputBlock

/-- A named pipeline: ordered receiver, processor and exporter ID lists.
Connector IDs appear inside the receiver and exporter lists. -/
structure Pipeline where
  receivers : List ID
  processors : List ID
  exporters : List ID
deriving DecidableEq

/-- The `service` section: the activated extension IDs and the named
pipelines.  The pipeline map is represented as a canonical list because the
spec requires the (external) grouping routine to be deterministic. -/
structure Service where
  extensions : List ID
  pipelines : List (String × Pipeline)
deriving DecidableEq

/-- The validated source configuration.  The five per-role maps are
represented by their key-enumeration lists; the configuration values are
only ever passed opaquely to converter strategies.  `connectors` is the
enumeration order produced by `maps.Keys(cfg.Connectors)`, which Go does not
fix. -/
structure Config where
  receivers : List ID
  processors : List ID
  exporters : List ID
  connectors : List ID
  extensions : List ID
  service : Service
deriving DecidableEq

/-- Modelled from the spec: a `pipelineGroup` is a maximal cluster of named
pipelines connected by shared component identities.  The accessor methods
`Receivers()`, `Processors()` and `Exporters()` (outside the provided
source) expose the deduplicated, first-seen-ordered union of the member
pipelines' ID lists. -/
structure PipelineGroup where
  pipelines : List (String × Pipeline)
deriving DecidableEq

/-- First-seen-order deduplication helper, threading the set of already-seen
IDs. -/
def dedupFirstAux (seen : List ID) : List ID → List ID
  | [] => []
  | x :: xs => if x ∈ seen then dedupFirstAux seen xs else x :: dedupFirstAux (x :: seen) xs

/-- Deduplicate a list of IDs keeping the first occurrence of each. -/
def dedupFirst (l : List ID) : List ID :=
  dedupFirstAux [] l

/-- Modelled from the spec: `group.Receivers()` — deduplicated union of the
member pipelines' receiver IDs. -/
def groupReceivers (g : PipelineGroup) : List ID :=
  dedupFirst (g.pipelines.foldr (fun np acc => np.2.receivers ++ acc) [])

/-- Modelled from the spec: `group.Processors()`. -/
def groupProcessors (g : PipelineGroup) : List ID :=
  dedupFirst (g.pipelines.foldr (fun np acc => np.2.processors ++ acc) [])

/-- Modelled from the spec: `group.Exporters()`. -/
def groupExporters (g : PipelineGroup) : List ID :=
  dedupFirst (g.pipelines.foldr (fun np acc => np.2.exporters ++ acc) [])

/-- All component IDs a pipeline mentions (receivers, processors,
exporters; connectors occur inside the receiver/exporter lists). -/
def pipelineIDs (p : Pipeline) : List ID :=
  p.receivers ++ p.processors ++ p.exporters

/-- All component IDs mentioned by any member pipeline of a group. -/
def groupAllIDs (g : PipelineGroup) : List ID :=
  g.pipelines.foldr (fun np acc => pipelineIDs np.2 ++ acc) []

/-- Whether a pipeline shares at least one component identity with a
group. -/
def sharesWith (p : Pipeline) (g : PipelineGroup) : Bool :=
  (pipelineIDs p).any (fun id => (groupAllIDs g).any (fun id2 => decide (id = id2)))

/-- Modelled from the spec: incremental connected-components step — adding
one named pipeline merges every existing group it shares a component with
into a single group. -/
def addPipelineToGroups (groups : List PipelineGroup) (np : String × Pipeline) : List PipelineGroup :=
  let merged : PipelineGroup :=
    ⟨(groups.filter (fun g => sharesWith np.2 g)).foldr (fun g acc => g.pipelines ++ acc) [] ++ [np]⟩
  groups.filter (fun g => ¬ sharesWith np.2 g) ++ [merged]

/-- Modelled from the spec: `createPipelineGroups` — partition the named
pipelines into maximal clusters connected by shared component usage,
deterministically.  The routine is outside the provided source; the spec
describes no failure mode, so the `Except` error case (handled by
`AppendConfig`) is never produced here. -/
def createPipelineGroups (pipelines : List (String × Pipeline)) : Except String (List PipelineGroup) :=
  .ok (pipelines.foldl addPipelineToGroups [])

/-- `filterIDs`: literal translation of the Go loops — for each element of
`ins`, scan all of `rem` setting a flag on equality, and append the element
to the result when the flag stayed false. -/
def filterIDs (ins rem : List ID) : List ID :=
  ins.foldl
    (fun res set =>
      if rem.foldl (fun ex id => if set = id then true else ex) false then res
      else res ++ [set])
    []

/-- The critical diagnostic emitted by `validateNoDuplicateReceivers` for a
repeated receiver. -/
def dupReceiverDiag (r : ID) : Diag :=
  ⟨.critical, "the configuration is unsupported because the receiver \"" ++ idString r ++
    "\" is used across multiple pipelines with distinct names"⟩

/-- One step of the duplicate-receiver scan: state is (diagnostics so far,
used-receiver set).  Re-adding a present key to a Go map is a no-op, hence
the set only grows on first sight. -/
def vnrStep (acc : Diagnostics × List ID) (receiver : ID) : Diagnostics × List ID :=
  if receiver ∈ acc.2 then (acc.1 ++ [dupReceiverDiag receiver], acc.2)
  else (acc.1, acc.2 ++ [receiver])

/-- `validateNoDuplicateReceivers`: scan every group's
connector-filtered receiver list against a shared used-set, emitting a
critical diagnostic each time an already-used receiver is met. -/
def validateNoDuplicateReceivers (groups : List PipelineGroup) (connectorIDs : List ID) : Diagnostics :=
  (groups.foldl
    (fun acc g => (filterIDs (groupReceivers g) connectorIDs).foldl vnrStep acc)
    ([], [])).1

/-- The converter registry: an insertion-ordered (key, converter)
association list standing for the Go map. -/
abbrev ConvTable := List (ConverterKey × ComponentConverter)

/-- First-match association-list lookup. -/
def tableLookup : ConvTable → ConverterKey → Option ComponentConverter
  | [], _ => none
  | (k, c) :: rest, key => if k = key then some c else tableLookup rest key

/-- Insert-if-absent, as in the `buildConverterTable` inner loop: an
occupied key is skipped. -/
def tableInsert (table : ConvTable) (key : ConverterKey) (conv : ComponentConverter) : ConvTable :=
  if (tableLookup table key).isSome then table else table ++ [(key, conv)]

/-- Register one converter under every kind its factory shape yields. -/
def registerConverter (table : ConvTable) (conv : ComponentConverter) : ConvTable :=
  (factoryKinds conv.factory).foldl
    (fun t kind => tableInsert t ⟨kind, conv.factory.typeName⟩ conv) table

/-- `buildConverterTable`: fold the override list followed by the built-in
list into the registry; ordering is critical because conflicting converters
are resolved with the first one in the list winning. -/
def buildConverterTable (extraConverters builtins : List ComponentConverter) : ConvTable :=
  (extraConverters ++ builtins).foldl registerConverter []

/-- The registry keys a converter declares: each factory kind paired with
the factory's type. -/
def convKeys (c : ComponentConverter) : List ConverterKey :=
  (factoryKinds c.factory).map (fun k => ⟨k, c.factory.typeName⟩)

/-- Boolean test that a converter declares a given key. -/
def declares (key : ConverterKey) (c : ComponentConverter) : Bool :=
  (convKeys c).any (fun k2 => decide (k2 = key))

/-- `otelcol.Factories` as built by `getFactories`: per-role type-indexed
factory maps, represented as association lists. -/
structure Factories where
  receivers : List (String × Factory)
  processors : List (String × Factory)
  exporters : List (String × Factory)
  extensions : List (String × Factory)
  connectors : List (String × Factory)

/-- Loop of `getFactories`: file each converter's factory under its role, or
abort fatally (Go `panic`) on an unknown factory shape. -/
def getFactoriesAux (acc : Factories) : List ComponentConverter → Except String Factories
  | [] => .ok acc
  | c :: rest =>
    match c.factory with
    | .receiver t => getFactoriesAux { acc with receivers := acc.receivers ++ [(t, c.factory)] } rest
    | .processor t => getFactoriesAux { acc with processors := acc.processors ++ [(t, c.factory)] } rest
    | .exporter t => getFactoriesAux { acc with exporters := acc.exporters ++ [(t, c.factory)] } rest
    | .extension t => getFactoriesAux { acc with extensions := acc.extensions ++ [(t, c.factory)] } rest
    | .connector t => getFactoriesAux { acc with connectors := acc.connectors ++ [(t, c.factory)] } rest
    | .unknown => .error "unknown component factory type"

/-- `getFactories`: builds the read-time factory set; the only function of
the source whose `switch` has a `default` branch that aborts fatally. -/
def getFactories (convs : List ComponentConverter) : Except String Factories :=
  getFactoriesAux ⟨[], [], [], [], []⟩ convs

/-- Result of the dispatcher loops: accumulated diagnostics, blocks appended
to the output file, and the ghost trace of strategy invocations
(instance IDs, in invocation order).  `.error` models a Go `panic`. -/
abbrev DispatchOut := Except String (Diagnostics × List OutputBlock × List (Kind × ID))

/-- Inner loop of the `AppendConfig` group phase for one component set:
look up each ID's strategy by (kind, type) — a miss is fatal — and invoke
it, accumulating diagnostics and appended blocks in order. -/
def dispatchIDs (table : ConvTable) (kind : Kind) : List ID → DispatchOut
  | [] => .ok ([], [], [])
  | id :: rest =>
    match tableLookup table ⟨kind, id.typ⟩ with
    | none => .error ("otelcolconvert: no converter found for key " ++ id.typ)
    | some conv =>
      match dispatchIDs table kind rest with
      | .error e => .error e
      | .ok (d, b, t) =>
        .ok (conv.convDiags (kind, id) ++ d, conv.appendsOut (kind, id) ++ b, (kind, id) :: t)

/-- One group's `componentSets` pass of `AppendConfig`: receivers (with
connectors filtered out), processors, exporters (filtered likewise), and
then the full connector ID list, in the source's fixed order. -/
def dispatchGroup (table : ConvTable) (connectorIDs : List ID) (g : PipelineGroup) : DispatchOut :=
  match dispatchIDs table .receiver (filterIDs (groupReceivers g) connectorIDs) with
  | .error e => .error e
  | .ok r =>
    match dispatchIDs table .processor (groupProcessors g) with
    | .error e => .error e
    | .ok p =>
      match dispatchIDs table .exporter (filterIDs (groupExporters g) connectorIDs) with
      | .error e => .error e
      | .ok x =>
        match dispatchIDs table .connector connectorIDs with
        | .error e => .error e
        | .ok c =>
          .ok (r.1 ++ p.1 ++ x.1 ++ c.1,
               r.2.1 ++ p.2.1 ++ x.2.1 ++ c.2.1,
               r.2.2 ++ p.2.2 ++ x.2.2 ++ c.2.2)

/-- The outer loop of the group phase. -/
def dispatchGroups (table : ConvTable) (connectorIDs : List ID) : List PipelineGroup → DispatchOut
  | [] => .ok ([], [], [])
  | g :: gs =>
    match dispatchGroup table connectorIDs g with
    | .error e => .error e
    | .ok (d, b, t) =>
      match dispatchGroups table connectorIDs gs with
      | .error e => .error e
      | .ok (d2, b2, t2) => .ok (d ++ d2, b ++ b2, t ++ t2)

/-- The extension phase of `AppendConfig`: convert each activated extension
(with an empty placeholder group) and record its output reference in the
extension table.  The Alloy label the table stores is computed by the
`State` collaborator; the embedding keeps the converter's
`InputComponentName()` part. -/
def dispatchExtensions (table : ConvTable) : List ID → Except String (Diagnostics × List OutputBlock × List (Kind × ID) × List (ID × String))
  | [] => .ok ([], [], [], [])
  | ext :: rest =>
    match tableLookup table ⟨.extension, ext.typ⟩ with
    | none => .error ("otelcolconvert: no converter found for key " ++ ext.typ)
    | some conv =>
      match dispatchExtensions table rest with
      | .error e => .error e
      | .ok (d, b, t, tbl) =>
        .ok (conv.convDiags (.extension, ext) ++ d,
             conv.appendsOut (.extension, ext) ++ b,
             (.extension, ext) :: t,
             (ext, conv.inputComponentName) :: tbl)

/-- What one `AppendConfig` call produced: its returned diagnostics, the
blocks it appended to the file, and the ghost invocation trace. -/
structure AppendResult where
  diags : Diagnostics
  blocks : List OutputBlock
  trace : List (Kind × ID)
deriving DecidableEq

/-- `AppendConfig` after the grouping call: validate that no receiver is
claimed by two groups (aborting with only the duplicate diagnostics and an
untouched file on failure), then run the extension phase followed by the
group phase. -/
def appendConfigFromGroups (groups : List PipelineGroup) (connectorIDs exts : List ID)
    (table : ConvTable) : Except String AppendResult :=
  let duplicateDiags := validateNoDuplicateReceivers groups connectorIDs
  if duplicateDiags ≠ [] then .ok ⟨duplicateDiags, [], []⟩
  else
    match dispatchExtensions table exts with
    | .error e => .error e
    | .ok (ed, eb, et, _extTable) =>
      match dispatchGroups table connectorIDs groups with
      | .error e => .error e
      | .ok (gd, gb, gt) => .ok ⟨ed ++ gd, eb ++ gb, et ++ gt⟩

/-- `AppendConfig`: group the pipelines (a failure is a critical diagnostic
and an empty result), build the converter table from the extra converters
followed by the built-ins, enumerate the connector map keys, and dispatch.
The label-prefix argument only feeds the `State` collaborator and is unused
by the embedded control flow. -/
def AppendConfig (cfg : Config) (_labelPfx : String)
    (extraConverters builtins : List ComponentConverter) : Except String AppendResult :=
  match createPipelineGroups cfg.service.pipelines with
  | .error e => .ok ⟨[⟨.critical, "failed to interpret config: " ++ e⟩], [], []⟩
  | .ok groups =>
    appendConfigFromGroups groups cfg.connectors cfg.service.extensions
      (buildConverterTable extraConverters builtins)

/-- The external collaborators `Convert` drives, as oracle functions:
reading/schema-validating the input, `cfg.Validate`, `common.ValidateNodes`,
rendering (`File.WriteTo`) and `common.PrettyPrint`. -/
structure Collaborators where
  readConfig : String → Except String Config
  validateCfg : Config → Option String
  validateNodes : List OutputBlock → Diagnostics
  render : List OutputBlock → Except String String
  prettyPrint : String → String × Diagnostics

/-- `Convert`: reject extra arguments; read and validate the input (each
failure yields exactly the one critical diagnostic); append the converted
config to a fresh file with no extra converters; validate the nodes; render
(failure is critical); return no output when the rendered buffer is empty,
otherwise pretty-print and return.  A dispatch `panic` propagates as
`.error`. -/
def Convert (co : Collaborators) (builtins : List ComponentConverter)
    (input : String) (extraArgs : List String) : Except String (Option String × Diagnostics) :=
  if extraArgs ≠ [] then
    .ok (none, [⟨.critical, "extra arguments are not supported for the otelcol converter: " ++
      String.intercalate " " extraArgs⟩])
  else
    match co.readConfig input with
    | .error e => .ok (none, [⟨.critical, e⟩])
    | .ok cfg =>
      match co.validateCfg cfg with
      | some e => .ok (none, [⟨.critical, "failed to validate config: " ++ e⟩])
      | none =>
        match AppendConfig cfg "" [] builtins with
        | .error e => .error e
        | .ok res =>
          match co.render res.blocks with
          | .error e =>
            .ok (none, res.diags ++ co.validateNodes res.blocks
              ++ [⟨.critical, "failed to render Alloy config: " ++ e⟩])
          | .ok buf =>
            if buf = "" then .ok (none, res.diags ++ co.validateNodes res.blocks)
            else
              .ok (some (co.prettyPrint buf).1,
                res.diags ++ co.validateNodes res.blocks ++ (co.prettyPrint buf).2)

/-- Replace the reader oracle so that it yields a fixed parsed
configuration: two `Convert` runs on the same input bytes are two runs whose
readers produce map-equal configurations. -/
def withRead (co : Collaborators) (cfg : Config) : Collaborators :=
  { co with readConfig := fun _ => .ok cfg }

/-- Two configurations are the same input read twice when they agree
everywhere except possibly in the enumeration order of the connector map
keys (Go map iteration order is unspecified). -/
def SameMap (c1 c2 : Config) : Prop :=
  c1.receivers = c2.receivers ∧ c1.processors = c2.processors ∧
  c1.exporters = c2.exporters ∧ c1.connectors.Perm c2.connectors ∧
  c1.extensions = c2.extensions ∧ c1.service = c2.service

/-- The flattened sequence of connector-filtered receiver occurrences the
duplicate validator scans, in scan order. -/
def flatOccurrences (groups : List PipelineGroup) (connectorIDs : List ID) : List ID :=
  match groups with
  | [] => []
  | g :: gs => filterIDs (groupReceivers g) connectorIDs ++ flatOccurrences gs connectorIDs

/-- Number of repeated occurrences in a scan starting from a given used-set:
each element already seen counts one. -/
def seenDupCount (used : List ID) : List ID → Nat
  | [] => 0
  | x :: xs => if x ∈ used then 1 + seenDupCount used xs else seenDupCount (used ++ [x]) xs

/-- Occurrence count of an ID in a list. -/
def occCount (r : ID) (l : List ID) : Nat :=
  l.countP (fun x => decide (x = r))

/-! ### Concrete fixtures used by witnesses and counterexamples -/

/-- A simple converter strategy for a given factory: it returns no
diagnostics and appends one block labelled by the component instance. -/
def mkConv (f : Factory) : ComponentConverter :=
  ⟨f, "otelcol." ++ f.typeName, fun _ => [], fun ki => [⟨f.typeName, idString ki.2⟩]⟩

def c1conn : ID := ⟨"cnt", ""⟩

def c1builtins : List ComponentConverter :=
  [mkConv (.receiver "rcv"), mkConv (.exporter "exp"), mkConv (.connector "cnt")]

/-- Two pipeline groups: `traces/a` and `traces/b` are tied together by the
connector `cnt`, while `metrics/c` is disjoint. -/
def c1svc : Service :=
  ⟨[], [("traces/a", ⟨[⟨"rcv", "1"⟩], [], [c1conn]⟩),
        ("traces/b", ⟨[c1conn], [], [⟨"exp", "1"⟩]⟩),
        ("metrics/c", ⟨[⟨"rcv", "2"⟩], [], [⟨"exp", "2"⟩]⟩)]⟩

def c1cfg : Config :=
  ⟨[⟨"rcv", "1"⟩, ⟨"rcv", "2"⟩], [], [⟨"exp", "1"⟩, ⟨"exp", "2"⟩], [c1conn], [], c1svc⟩

def c1table : ConvTable := buildConverterTable [] c1builtins

def c1group1 : PipelineGroup :=
  ⟨[("traces/a", ⟨[⟨"rcv", "1"⟩], [], [c1conn]⟩),
    ("traces/b", ⟨[c1conn], [], [⟨"exp", "1"⟩]⟩)]⟩

def c1trace1 : List (Kind × ID) :=
  [(.receiver, ⟨"rcv", "1"⟩), (.exporter, ⟨"exp", "1"⟩), (.connector, c1conn)]

def c1blocks1 : List OutputBlock :=
  [⟨"rcv", "rcv/1"⟩, ⟨"exp", "exp/1"⟩, ⟨"cnt", "cnt"⟩]

/-- The C1 witness table also registers an extension converter, so both the
extension phase and the group phase can be exercised against it. -/
def c1wtable : ConvTable := buildConverterTable [] (c1builtins ++ [mkConv (.extension "health")])

def c1ext : ID := ⟨"health", ""⟩

def c1etrace : List (Kind × ID) := [(.extension, c1ext)]

def c1eblocks : List OutputBlock := [⟨"health", "health"⟩]

def c1etbl : List (ID × String) := [(c1ext, "otelcol.health")]

def w2r : ID := ⟨"otlp", ""⟩

def w2g1 : PipelineGroup := ⟨[("traces/a", ⟨[w2r], [], [⟨"exp", "1"⟩]⟩)]⟩

def w2g2 : PipelineGroup := ⟨[("logs/b", ⟨[w2r], [], [⟨"exp", "2"⟩]⟩)]⟩

/-- A converter that appends a block but also reports a critical
diagnostic: the strategy library is free to do this. -/
def c3conv : ComponentConverter :=
  ⟨.receiver "rcv", "otelcol.receiver.rcv", fun _ => [⟨.critical, "unsupported feature"⟩],
   fun ki => [⟨"rcv", idString ki.2⟩]⟩

def c3builtins : List ComponentConverter := [c3conv, mkConv (.exporter "exp")]

def c3cfg : Config :=
  ⟨[⟨"rcv", "1"⟩], [], [⟨"exp", "1"⟩], [], [],
   ⟨[], [("traces/a", ⟨[⟨"rcv", "1"⟩], [], [⟨"exp", "1"⟩]⟩)]⟩⟩

/-- Honest rendering collaborators: no extra diagnostics, rendering
concatenates the blocks, pretty-printing is the identity. -/
def plainCo : Collaborators :=
  ⟨fun _ => .error "unused", fun _ => none, fun _ => [],
   fun blocks => .ok (String.join (blocks.map (fun b => b.name ++ " " ++ b.label ++ "
"))),
   fun s => (s, [])⟩

/-- Collaborators whose reader always fails. -/
def w3co : Collaborators :=
  ⟨fun _ => .error "boom", fun _ => none, fun _ => [], fun _ => .ok "", fun s => (s, [])⟩

def c4builtins : List ComponentConverter :=
  [mkConv (.receiver "rcv"), mkConv (.exporter "exp"), mkConv (.connector "cnt")]

/-- One pipeline group using the two connectors `cnt/1` and `cnt/2` as both
exporters and receivers. -/
def c4svc : Service :=
  ⟨[], [("traces/a", ⟨[⟨"rcv", "1"⟩], [], [⟨"cnt", "1"⟩, ⟨"cnt", "2"⟩]⟩),
        ("traces/b", ⟨[⟨"cnt", "1"⟩, ⟨"cnt", "2"⟩], [], [⟨"exp", "1"⟩]⟩)]⟩

/-- The connector map enumerated as `cnt/1, cnt/2`. -/
def c4cfgA : Config :=
  ⟨[⟨"rcv", "1"⟩], [], [⟨"exp", "1"⟩], [⟨"cnt", "1"⟩, ⟨"cnt", "2"⟩], [], c4svc⟩

/-- The same connector map enumerated as `cnt/2, cnt/1`. -/
def c4cfgB : Config :=
  ⟨[⟨"rcv", "1"⟩], [], [⟨"exp", "1"⟩], [⟨"cnt", "2"⟩, ⟨"cnt", "1"⟩], [], c4svc⟩

/-- Projection of a `Convert` result onto its output text. -/
def convertOutStr : Except String (Option String × Diagnostics) → String
  | .ok (some s, _) => s
  | _ => ""

/-- A single-connector configuration for the determinism witness. -/
def c4wcfg : Config :=
  ⟨[⟨"rcv", "1"⟩], [], [⟨"exp", "1"⟩], [⟨"cnt", "1"⟩], [],
   ⟨[], [("traces/a", ⟨[⟨"rcv", "1"⟩], [], [⟨"cnt", "1"⟩]⟩),
         ("traces/b", ⟨[⟨"cnt", "1"⟩], [], [⟨"exp", "1"⟩]⟩)]⟩⟩

def ovrConv : ComponentConverter :=
  ⟨.receiver "otlp", "otelcol.receiver.otlp.override", fun _ => [], fun _ => []⟩

def bltConv : ComponentConverter :=
  ⟨.receiver "otlp", "otelcol.receiver.otlp", fun _ => [], fun _ => []⟩

def w6g : PipelineGroup := ⟨[("traces/p", ⟨[⟨"otlp", "w6"⟩], [], []⟩)]⟩

/-- Collaborators whose schema validation always fails. -/
def w7cfg : Config := ⟨[], [], [], [], [], ⟨[], []⟩⟩

def w7co : Collaborators :=
  ⟨fun _ => .ok w7cfg, fun _ => some "bad", fun _ => [], fun _ => .ok "", fun s => (s, [])⟩

/-- A converter whose factory descriptor matches none of the five factory
interfaces. -/
def unknownConv : ComponentConverter := ⟨.unknown, "mystery", fun _ => [], fun _ => []⟩

def cntConv : ComponentConverter := mkConv (.connector "fwd")

/-! ### Helper lemmas about `filterIDs` and deduplication -/

theorem filterIDs_inner (s : ID) (rem : List ID) (b : Bool) :
    rem.foldl (fun ex id => if s = id then true else ex) b = (b || decide (s ∈ rem)) := by
  induction rem generalizing b with
  | nil => simp
  | cons x xs ih =>
    rw [List.foldl_cons, ih]
    by_cases h : s = x <;> simp [h, List.mem_cons]

theorem foldl_filter_snoc (p : ID → Bool) :
    ∀ (ins acc : List ID),
      ins.foldl (fun res set => if p set then res else res ++ [set]) acc
        = acc ++ ins.filter (fun i => !p i) := by
  intro ins
  induction ins with
  | nil => simp
  | cons x xs ih =>
    intro acc
    by_cases h : p x <;> simp [h, ih, List.filter_cons]

theorem filterIDs_eq_filter (ins rem : List ID) :
    filterIDs ins rem = ins.filter (fun i => decide (i ∉ rem)) := by
  unfold filterIDs
  have hfun :
      (fun (res : List ID) (set : ID) =>
        if rem.foldl (fun ex id => if set = id then true else ex) false then res
        else res ++ [set])
      = (fun (res : List ID) (set : ID) => if decide (set ∈ rem) then res else res ++ [set]) := by
    funext res set
    rw [filterIDs_inner]
    simp
  rw [hfun, foldl_filter_snoc]
  simp

theorem mem_filterIDs {x : ID} {ins rem : List ID} :
    x ∈ filterIDs ins rem ↔ x ∈ ins ∧ x ∉ rem := by
  simp [filterIDs_eq_filter, List.mem_filter]

theorem filterIDs_nodup {ins : List ID} (rem : List ID) (h : ins.Nodup) :
    (filterIDs ins rem).Nodup := by
  rw [filterIDs_eq_filter]
  exact h.filter _

theorem dedupFirstAux_not_mem_seen {x : ID} :
    ∀ (l seen : List ID), x ∈ dedupFirstAux seen l → x ∉ seen := by
  intro l
  induction l with
  | nil => intro seen h; simp [dedupFirstAux] at h
  | cons y ys ih =>
    intro seen h
    simp only [dedupFirstAux] at h
    split at h
    · exact ih seen h
    · rcases List.mem_cons.mp h with rfl | h2
      · assumption
      · intro hx
        exact ih (y :: seen) h2 (List.mem_cons_of_mem y hx)

theorem dedupFirstAux_nodup : ∀ (l seen : List ID), (dedupFirstAux seen l).Nodup := by
  intro l
  induction l with
  | nil => intro seen; simp [dedupFirstAux]
  | cons y ys ih =>
    intro seen
    simp only [dedupFirstAux]
    split
    · exact ih seen
    · refine List.nodup_cons.mpr ⟨?_, ih (y :: seen)⟩
      intro hmem
      exact dedupFirstAux_not_mem_seen ys (y :: seen) hmem (List.mem_cons_self y seen)

theorem dedupFirst_nodup (l : List ID) : (dedupFirst l).Nodup :=
  dedupFirstAux_nodup l []

theorem groupReceivers_nodup (g : PipelineGroup) : (groupReceivers g).Nodup :=
  dedupFirst_nodup _

theorem groupProcessors_nodup (g : PipelineGroup) : (groupProcessors g).Nodup :=
  dedupFirst_nodup _

theorem groupExporters_nodup (g : PipelineGroup) : (groupExporters g).Nodup :=
  dedupFirst_nodup _

/-! ### Helper lemmas about the converter registry -/

theorem tableLookup_append (t1 t2 : ConvTable) (key : ConverterKey) :
    tableLookup (t1 ++ t2) key =
      match tableLookup t1 key with
      | some v => some v
      | none => tableLookup t2 key := by
  induction t1 with
  | nil => simp [tableLookup]
  | cons kc rest ih =>
    rcases kc with ⟨k, c⟩
    by_cases h : k = key <;> simp [tableLookup, h, ih]

theorem tableLookup_tableInsert (t : ConvTable) (k : ConverterKey) (c : ComponentConverter)
    (key : ConverterKey) :
    tableLookup (tableInsert t k c) key =
      match tableLookup t key with
      | some v => some v
      | none => if k = key then some c else none := by
  unfold tableInsert
  by_cases h : (tableLookup t k).isSome
  · rw [if_pos h]
    cases hk : tableLookup t key with
    | some v => simp
    | none =>
      by_cases hkey : k = key
      · subst hkey
        rw [hk] at h
        simp at h
      · simp [hkey]
  · rw [if_neg h]
    rw [tableLookup_append]
    cases hk : tableLookup t key with
    | some v => simp
    | none => by_cases hkey : k = key <;> simp [tableLookup, hkey]

theorem tableLookup_foldl_insert (c : ComponentConverter) (key : ConverterKey) :
    ∀ (ks : List ConverterKey) (t : ConvTable),
      tableLookup (ks.foldl (fun tt k => tableInsert tt k c) t) key =
        match tableLookup t key with
        | some v => some v
        | none => if ks.any (fun k => decide (k = key)) then some c else none := by
  intro ks
  induction ks with
  | nil => intro t; cases h : tableLookup t key <;> simp [h]
  | cons k ks ih =>
    intro t
    rw [List.foldl_cons, ih, tableLookup_tableInsert]
    cases hk : tableLookup t key with
    | some v => simp
    | none => by_cases h : k = key <;> simp [h]

theorem tableLookup_registerConverter (t : ConvTable) (c : ComponentConverter)
    (key : ConverterKey) :
    tableLookup (registerConverter t c) key =
      match tableLookup t key with
      | some v => some v
      | none => if declares key c then some c else none := by
  have h1 : registerConverter t c = (convKeys c).foldl (fun tt k => tableInsert tt k c) t := by
    simp [registerConverter, convKeys, List.foldl_map]
  rw [h1, tableLookup_foldl_insert]
  rfl

theorem tableLookup_foldl_register (key : ConverterKey) :
    ∀ (l : List ComponentConverter) (t : ConvTable),
      tableLookup (l.foldl registerConverter t) key =
        match tableLookup t key with
        | some v => some v
        | none => l.find? (declares key) := by
  intro l
  induction l with
  | nil => intro t; cases h : tableLookup t key <;> simp [h, List.find?]
  | cons c cs ih =>
    intro t
    rw [List.foldl_cons, ih, tableLookup_registerConverter]
    cases hk : tableLookup t key with
    | some v => simp
    | none =>
      by_cases h : declares key c
      · simp [List.find?, h]
      · simp [List.find?, h]

theorem buildConverterTable_lookup (extraConverters builtins : List ComponentConverter)
    (key : ConverterKey) :
    tableLookup (buildConverterTable extraConverters builtins) key
      = (extraConverters ++ builtins).find? (declares key) := by
  rw [buildConverterTable, tableLookup_foldl_register]
  rfl

theorem find?_append_cases {p : ComponentConverter → Bool} :
    ∀ (l1 l2 : List ComponentConverter),
      (l1 ++ l2).find? p =
        match l1.find? p with
        | some c => some c
        | none => l2.find? p := by
  intro l1 l2
  induction l1 with
  | nil => simp [List.find?]
  | cons c cs ih =>
    by_cases h : p c <;> simp [List.find?, h, ih]

theorem find?_isSome_of_mem {p : ComponentConverter → Bool} :
    ∀ (l : List ComponentConverter) (c : ComponentConverter),
      c ∈ l → p c = true → ∃ c2, l.find? p = some c2 := by
  intro l
  induction l with
  | nil => intro c h; simp at h
  | cons x xs ih =>
    intro c hmem hp
    by_cases hx : p x
    · exact ⟨x, by simp [List.find?, hx]⟩
    · rcases List.mem_cons.mp hmem with rfl | h2
      · exact absurd hp (by simp [hx])
      · rcases ih c h2 hp with ⟨c2, hc2⟩
        exact ⟨c2, by simp [List.find?, hx, hc2]⟩

/-! ### Helper lemmas about the dispatcher -/

theorem dispatchIDs_ok_trace {table : ConvTable} {kind : Kind} :
    ∀ {ids : List ID} {d : Diagnostics} {b : List OutputBlock} {t : List (Kind × ID)},
      dispatchIDs table kind ids = .ok (d, b, t) → t = ids.map (fun id => (kind, id)) := by
  intro ids
  induction ids with
  | nil =>
    intro d b t h
    simp [dispatchIDs] at h
    simp [h.2.2]
  | cons id rest ih =>
    intro d b t h
    simp only [dispatchIDs] at h
    cases hl : tableLookup table ⟨kind, id.typ⟩ with
    | none => rw [hl] at h; exact absurd h (by simp)
    | some conv =>
      rw [hl] at h
      cases hr : dispatchIDs table kind rest with
      | error e => rw [hr] at h; exact absurd h (by simp)
      | ok out =>
        rcases out with ⟨d2, b2, t2⟩
        rw [hr] at h
        simp only [Except.ok.injEq, Prod.mk.injEq] at h
        rw [List.map_cons, ← h.2.2, ← ih hr]

theorem dispatchExtensions_ok_trace {table : ConvTable} :
    ∀ {exts : List ID} {d : Diagnostics} {b : List OutputBlock} {t : List (Kind × ID)}
      {tbl : List (ID × String)},
      dispatchExtensions table exts = .ok (d, b, t, tbl) →
      t = exts.map (fun e => ((Kind.extension : Kind), e)) := by
  intro exts
  induction exts with
  | nil =>
    intro d b t tbl h
    simp [dispatchExtensions] at h
    simp [h.2.2.1]
  | cons ext rest ih =>
    intro d b t tbl h
    simp only [dispatchExtensions] at h
    cases hl : tableLookup table ⟨.extension, ext.typ⟩ with
    | none => rw [hl] at h; exact absurd h (by simp)
    | some conv =>
      rw [hl] at h
      cases hr : dispatchExtensions table rest with
      | error e => rw [hr] at h; exact absurd h (by simp)
      | ok out =>
        rcases out with ⟨d2, b2, t2, tbl2⟩
        rw [hr] at h
        simp only [Except.ok.injEq, Prod.mk.injEq] at h
        rw [List.map_cons, ← h.2.2.1, ← ih hr]

theorem dispatchIDs_error_of_miss {table : ConvTable} {kind : Kind} :
    ∀ {ids : List ID}, (∃ id ∈ ids, tableLookup table ⟨kind, id.typ⟩ = none) →
      ∃ e, dispatchIDs table kind ids = .error e := by
  intro ids
  induction ids with
  | nil => rintro ⟨id, h, _⟩; simp at h
  | cons x rest ih =>
    rintro ⟨id, hmem, hnone⟩
    cases hl : tableLookup table ⟨kind, x.typ⟩ with
    | none =>
      exact ⟨"otelcolconvert: no converter found for key " ++ x.typ, by simp [dispatchIDs, hl]⟩
    | some conv =>
      rcases List.mem_cons.mp hmem with rfl | h2
      · rw [hl] at hnone; exact absurd hnone (by simp)
      · rcases ih ⟨id, h2, hnone⟩ with ⟨e, he⟩
        exact ⟨e, by simp [dispatchIDs, hl, he]⟩

/-- The converter invoked by a successful singleton dispatch is exactly the
table entry for the component's (kind, type). -/
theorem dispatchIDs_singleton {table : ConvTable} {kind : Kind} {id : ID}
    {conv : ComponentConverter} (h : tableLookup table ⟨kind, id.typ⟩ = some conv) :
    dispatchIDs table kind [id] =
      .ok (conv.convDiags (kind, id), conv.appendsOut (kind, id), [(kind, id)]) := by
  simp [dispatchIDs, h]

/-- All diagnostics a successful ID dispatch accumulates come from
converters stored in the table. -/
theorem dispatchIDs_diags_from_table {table : ConvTable} {kind : Kind}
    (hT : ∀ key c, tableLookup table key = some c →
      ∀ x dg, dg ∈ c.convDiags x → dg.severity ≠ .critical) :
    ∀ {ids : List ID} {d : Diagnostics} {b : List OutputBlock} {t : List (Kind × ID)},
      dispatchIDs table kind ids = .ok (d, b, t) → ∀ dg ∈ d, dg.severity ≠ .critical := by
  intro ids
  induction ids with
  | nil =>
    intro d b t h
    simp [dispatchIDs] at h
    simp [h.1]
  | cons id rest ih =>
    intro d b t h
    simp only [dispatchIDs] at h
    cases hl : tableLookup table ⟨kind, id.typ⟩ with
    | none => rw [hl] at h; exact absurd h (by simp)
    | some conv =>
      rw [hl] at h
      cases hr : dispatchIDs table kind rest with
      | error e => rw [hr] at h; exact absurd h (by simp)
      | ok out =>
        rcases out with ⟨d2, b2, t2⟩
        rw [hr] at h
        simp only [Except.ok.injEq, Prod.mk.injEq] at h
        intro dg hdg
        rw [← h.1] at hdg
        rcases List.mem_append.mp hdg with hc | hc
        · exact hT _ _ hl _ dg hc
        · exact ih hr dg hc

theorem dispatchExtensions_diags_from_table {table : ConvTable}
    (hT : ∀ key c, tableLookup table key = some c →
      ∀ x dg, dg ∈ c.convDiags x → dg.severity ≠ .critical) :
    ∀ {exts : List ID} {d : Diagnostics} {b : List OutputBlock} {t : List (Kind × ID)}
      {tbl : List (ID × String)},
      dispatchExtensions table exts = .ok (d, b, t, tbl) →
      ∀ dg ∈ d, dg.severity ≠ .critical := by
  intro exts
  induction exts with
  | nil =>
    intro d b t tbl h
    simp [dispatchExtensions] at h
    simp [h.1]
  | cons ext rest ih =>
    intro d b t tbl h
    simp only [dispatchExtensions] at h
    cases hl : tableLookup table ⟨.extension, ext.typ⟩ with
    | none => rw [hl] at h; exact absurd h (by simp)
    | some conv =>
      rw [hl] at h
      cases hr : dispatchExtensions table rest with
      | error e => rw [hr] at h; exact absurd h (by simp)
      | ok out =>
        rcases out with ⟨d2, b2, t2, tbl2⟩
        rw [hr] at h
        simp only [Except.ok.injEq, Prod.mk.injEq] at h
        intro dg hdg
        rw [← h.1] at hdg
        rcases List.mem_append.mp hdg with hc | hc
        · exact hT _ _ hl _ dg hc
        · exact ih hr dg hc

theorem dispatchGroup_diags_from_table {table : ConvTable} {connectorIDs : List ID}
    {g : PipelineGroup}
    (hT : ∀ key c, tableLookup table key = some c →
      ∀ x dg, dg ∈ c.convDiags x → dg.severity ≠ .critical)
    {d : Diagnostics} {b : List OutputBlock} {t : List (Kind × ID)}
    (h : dispatchGroup table connectorIDs g = .ok (d, b, t)) :
    ∀ dg ∈ d, dg.severity ≠ .critical := by
  unfold dispatchGroup at h
  cases h1 : dispatchIDs table .receiver (filterIDs (groupReceivers g) connectorIDs) with
  | error e => rw [h1] at h; exact absurd h (by simp)
  | ok r =>
    rw [h1] at h
    cases h2 : dispatchIDs table .processor (groupProcessors g) with
    | error e => rw [h2] at h; exact absurd h (by simp)
    | ok p =>
      rw [h2] at h
      cases h3 : dispatchIDs table .exporter (filterIDs (groupExporters g) connectorIDs) with
      | error e => rw [h3] at h; exact absurd h (by simp)
      | ok x =>
        rw [h3] at h
        cases h4 : dispatchIDs table .connector connectorIDs with
        | error e => rw [h4] at h; exact absurd h (by simp)
        | ok c =>
          rw [h4] at h
          simp only [Except.ok.injEq, Prod.mk.injEq] at h
          intro dg hdg
          rw [← h.1] at hdg
          rcases r with ⟨rd, rb, rt⟩
          rcases p with ⟨pd, pb, pt⟩
          rcases x with ⟨xd, xb, xt⟩
          rcases c with ⟨cd, cb, ct⟩
          simp only [List.append_assoc, List.mem_append] at hdg
          rcases hdg with hc | hc | hc | hc
          · exact dispatchIDs_diags_from_table hT h1 dg hc
          · exact dispatchIDs_diags_from_table hT h2 dg hc
          · exact dispatchIDs_diags_from_table hT h3 dg hc
          · exact dispatchIDs_diags_from_table hT h4 dg hc

theorem dispatchGroups_diags_from_table {table : ConvTable} {connectorIDs : List ID}
    (hT : ∀ key c, tableLookup table key = some c →
      ∀ x dg, dg ∈ c.convDiags x → dg.severity ≠ .critical) :
    ∀ {groups : List PipelineGroup} {d : Diagnostics} {b : List OutputBlock}
      {t : List (Kind × ID)},
      dispatchGroups table connectorIDs groups = .ok (d, b, t) →
      ∀ dg ∈ d, dg.severity ≠ .critical := by
  intro groups
  induction groups with
  | nil =>
    intro d b t h
    simp [dispatchGroups] at h
    simp [h.1]
  | cons g gs ih =>
    intro d b t h
    simp only [dispatchGroups] at h
    cases h1 : dispatchGroup table connectorIDs g with
    | error e => rw [h1] at h; exact absurd h (by simp)
    | ok out =>
      rcases out with ⟨d1, b1, t1⟩
      rw [h1] at h
      cases h2 : dispatchGroups table connectorIDs gs with
      | error e => rw [h2] at h; exact absurd h (by simp)
      | ok out2 =>
        rcases out2 with ⟨d2, b2, t2⟩
        rw [h2] at h
        simp only [Except.ok.injEq, Prod.mk.injEq] at h
        intro dg hdg
        rw [← h.1] at hdg
        rcases List.mem_append.mp hdg with hc | hc
        · exact dispatchGroup_diags_from_table hT h1 dg hc
        · exact ih h2 dg hc

/-! ### Helper lemmas about the duplicate-receiver validator -/

theorem vnr_eq_flat (connectorIDs : List ID) :
    ∀ (groups : List PipelineGroup) (acc : Diagnostics × List ID),
      groups.foldl
        (fun a g => (filterIDs (groupReceivers g) connectorIDs).foldl vnrStep a) acc
      = (flatOccurrences groups connectorIDs).foldl vnrStep acc := by
  intro groups
  induction groups with
  | nil => intro acc; simp [flatOccurrences]
  | cons g gs ih =>
    intro acc
    rw [List.foldl_cons, ih, flatOccurrences, List.foldl_append]

theorem validateNoDuplicateReceivers_flat (groups : List PipelineGroup)
    (connectorIDs : List ID) :
    validateNoDuplicateReceivers groups connectorIDs
      = ((flatOccurrences groups connectorIDs).foldl vnrStep ([], [])).1 := by
  rw [validateNoDuplicateReceivers, vnr_eq_flat]

theorem occCount_append (r : ID) (l1 l2 : List ID) :
    occCount r (l1 ++ l2) = occCount r l1 + occCount r l2 := by
  simp [occCount, List.countP_append]

theorem occCount_pos_of_mem {r : ID} {l : List ID} (h : r ∈ l) : 1 ≤ occCount r l := by
  rw [occCount]
  exact List.countP_pos_iff.mpr ⟨r, h, by simp⟩

theorem vnrFlat_mem_dup :
    ∀ (os : List ID) (ds : Diagnostics) (used : List ID) (r : ID),
      (2 ≤ occCount r os ∨ (1 ≤ occCount r os ∧ r ∈ used) ∨ dupReceiverDiag r ∈ ds) →
      dupReceiverDiag r ∈ (os.foldl vnrStep (ds, used)).1 := by
  intro os
  induction os with
  | nil =>
    intro ds used r h
    rcases h with h | h | h
    · simp [occCount] at h
    · simp [occCount] at h
    · simpa using h
  | cons x xs ih =>
    intro ds used r h
    rw [List.foldl_cons]
    unfold vnrStep
    by_cases hx : x ∈ used
    · rw [if_pos hx]
      rcases h with h | h | h
      · by_cases hrx : x = r
        · subst hrx
          exact ih _ _ x (Or.inr (Or.inr (by simp)))
        · refine ih _ _ r (Or.inl ?_)
          have : occCount r (x :: xs) = occCount r xs := by
            simp [occCount, List.countP_cons, hrx]
          omega
      · by_cases hrx : x = r
        · subst hrx
          exact ih _ _ x (Or.inr (Or.inr (by simp)))
        · refine ih _ _ r (Or.inr (Or.inl ⟨?_, h.2⟩))
          have : occCount r (x :: xs) = occCount r xs := by
            simp [occCount, List.countP_cons, hrx]
          omega
      · exact ih _ _ r (Or.inr (Or.inr (by simp [h])))
    · rw [if_neg hx]
      rcases h with h | h | h
      · by_cases hrx : x = r
        · subst hrx
          have hcnt : occCount x (x :: xs) = occCount x xs + 1 := by
            simp [occCount, List.countP_cons]
          refine ih _ _ x (Or.inr (Or.inl ⟨by omega, by simp⟩))
        · refine ih _ _ r (Or.inl ?_)
          have : occCount r (x :: xs) = occCount r xs := by
            simp [occCount, List.countP_cons, hrx]
          omega
      · by_cases hrx : x = r
        · subst hrx
          exact absurd h.2 hx
        · refine ih _ _ r (Or.inr (Or.inl ⟨?_, List.mem_append_left _ h.2⟩))
          have : occCount r (x :: xs) = occCount r xs := by
            simp [occCount, List.countP_cons, hrx]
          omega
      · exact ih _ _ r (Or.inr (Or.inr h))

theorem vnrFlat_length :
    ∀ (os : List ID) (ds : Diagnostics) (used : List ID),
      ((os.foldl vnrStep (ds, used)).1).length = ds.length + seenDupCount used os := by
  intro os
  induction os with
  | nil => intro ds used; simp [seenDupCount]
  | cons x xs ih =>
    intro ds used
    rw [List.foldl_cons]
    by_cases hx : x ∈ used
    · rw [show vnrStep (ds, used) x = (ds ++ [dupReceiverDiag x], used) from by
        simp [vnrStep, hx]]
      rw [ih]
      simp only [seenDupCount, if_pos hx, List.length_append, List.length_cons,
        List.length_nil]
      omega
    · rw [show vnrStep (ds, used) x = (ds, used ++ [x]) from by simp [vnrStep, hx]]
      rw [ih]
      simp only [seenDupCount, if_neg hx]

theorem vnrFlat_shape :
    ∀ (os : List ID) (ds : Diagnostics) (used : List ID) (d : Diag),
      d ∈ (os.foldl vnrStep (ds, used)).1 →
      d ∈ ds ∨ ∃ r, d = dupReceiverDiag r ∧ ((r ∈ used ∧ r ∈ os) ∨ 2 ≤ occCount r os) := by
  intro os
  induction os with
  | nil =>
    intro ds used d h
    simp at h
    exact Or.inl h
  | cons x xs ih =>
    intro ds used d h
    rw [List.foldl_cons] at h
    unfold vnrStep at h
    by_cases hx : x ∈ used
    · rw [if_pos hx] at h
      rcases ih _ _ d h with hin | ⟨r, hr, hcase⟩
      · rcases List.mem_append.mp hin with hin2 | hin2
        · exact Or.inl hin2
        · refine Or.inr ⟨x, by simpa using hin2, Or.inl ⟨hx, by simp⟩⟩
      · refine Or.inr ⟨r, hr, ?_⟩
        rcases hcase with ⟨h1, h2⟩ | hcnt
        · exact Or.inl ⟨h1, List.mem_cons_of_mem x h2⟩
        · refine Or.inr ?_
          have : occCount r (x :: xs) = occCount r xs + (if x = r then 1 else 0) := by
            simp [occCount, List.countP_cons]
          omega
    · rw [if_neg hx] at h
      rcases ih _ _ d h with hin | ⟨r, hr, hcase⟩
      · exact Or.inl hin
      · refine Or.inr ⟨r, hr, ?_⟩
        rcases hcase with ⟨h1, h2⟩ | hcnt
        · rcases List.mem_append.mp h1 with hu | hu
          · exact Or.inl ⟨hu, List.mem_cons_of_mem x h2⟩
          · have hrx : r = x := by simpa using hu
            subst hrx
            refine Or.inr ?_
            have h3 : 1 ≤ occCount r xs := occCount_pos_of_mem h2
            have : occCount r (r :: xs) = occCount r xs + 1 := by
              simp [occCount, List.countP_cons]
            omega
        · refine Or.inr ?_
          have : occCount r (x :: xs) = occCount r xs + (if x = r then 1 else 0) := by
            simp [occCount, List.countP_cons]
          omega

theorem flatOccurrences_append (connectorIDs : List ID) :
    ∀ (l1 l2 : List PipelineGroup),
      flatOccurrences (l1 ++ l2) connectorIDs
        = flatOccurrences l1 connectorIDs ++ flatOccurrences l2 connectorIDs := by
  intro l1 l2
  induction l1 with
  | nil => simp [flatOccurrences]
  | cons g gs ih => simp [flatOccurrences, ih]

/-! ### Helper lemmas about invocation traces and miscellanea -/

theorem kindTrace_nodup {k : Kind} {ids : List ID} (h : ids.Nodup) :
    (ids.map (fun id => (k, id))).Nodup :=
  h.map (fun _ _ hab => congrArg Prod.snd hab)

theorem kindTrace_disjoint {ka kb : Kind} (hne : ka ≠ kb) (la lb : List ID) :
    (la.map (fun id => (ka, id))).Disjoint (lb.map (fun id => (kb, id))) := by
  intro x hxa hxb
  rcases List.mem_map.mp hxa with ⟨a, _, rfl⟩
  rcases List.mem_map.mp hxb with ⟨b2, _, hb⟩
  exact hne (congrArg Prod.fst hb).symm

theorem kindTrace_append_nodup {l1 l2 l3 l4 : List ID}
    (h1 : l1.Nodup) (h2 : l2.Nodup) (h3 : l3.Nodup) (h4 : l4.Nodup) :
    (l1.map (fun id => ((Kind.receiver : Kind), id)) ++
      l2.map (fun id => ((Kind.processor : Kind), id)) ++
      l3.map (fun id => ((Kind.exporter : Kind), id)) ++
      l4.map (fun id => ((Kind.connector : Kind), id))).Nodup := by
  refine List.Nodup.append ?_ (kindTrace_nodup h4) ?_
  · refine List.Nodup.append ?_ (kindTrace_nodup h3) ?_
    · exact List.Nodup.append (kindTrace_nodup h1) (kindTrace_nodup h2)
        (kindTrace_disjoint (by simp) _ _)
    · rw [List.disjoint_append_left]
      exact ⟨kindTrace_disjoint (by simp) _ _, kindTrace_disjoint (by simp) _ _⟩
  · rw [List.disjoint_append_left, List.disjoint_append_left]
    exact ⟨⟨kindTrace_disjoint (by simp) _ _, kindTrace_disjoint (by simp) _ _⟩,
      kindTrace_disjoint (by simp) _ _⟩

theorem tableValues_builtins {builtins : List ComponentConverter} {key : ConverterKey}
    {c : ComponentConverter}
    (h : tableLookup (buildConverterTable [] builtins) key = some c) : c ∈ builtins := by
  rw [buildConverterTable_lookup] at h
  simpa using List.mem_of_find?_eq_some h

theorem perm_eq_of_length_le_one {l1 l2 : List ID} (h : l1.Perm l2)
    (hl : l1.length ≤ 1) : l1 = l2 := by
  match l1, hl with
  | [], _ => exact (List.perm_nil.mp h.symm).symm
  | [x], _ => exact (List.perm_singleton.mp h.symm).symm
  | x :: y :: rest, hl => simp at hl

theorem getFactoriesAux_error :
    ∀ (convs : List ComponentConverter) (acc : Factories),
      (∃ c ∈ convs, c.factory = .unknown) → ∃ e, getFactoriesAux acc convs = .error e := by
  intro convs
  induction convs with
  | nil => rintro acc ⟨c, hc, _⟩; simp at hc
  | cons c rest ih =>
    rintro acc ⟨c2, hc2, hu⟩
    rcases List.mem_cons.mp hc2 with rfl | hmem
    · exact ⟨"unknown component factory type", by simp [getFactoriesAux, hu]⟩
    · rcases hf : c.factory with t1 | t1 | t1 | t1 | t1 | _
      · simp only [getFactoriesAux, hf]
        exact ih _ ⟨c2, hmem, hu⟩
      · simp only [getFactoriesAux, hf]
        exact ih _ ⟨c2, hmem, hu⟩
      · simp only [getFactoriesAux, hf]
        exact ih _ ⟨c2, hmem, hu⟩
      · simp only [getFactoriesAux, hf]
        exact ih _ ⟨c2, hmem, hu⟩
      · simp only [getFactoriesAux, hf]
        exact ih _ ⟨c2, hmem, hu⟩
      · exact ⟨"unknown component factory type", by simp [getFactoriesAux, hf]⟩

theorem registerConverter_unknown {t : ConvTable} {c : ComponentConverter}
    (h : c.factory = .unknown) : registerConverter t c = t := by
  simp [registerConverter, h, factoryKinds]

theorem foldl_register_filter_unknown :
    ∀ (l : List ComponentConverter) (t : ConvTable),
      l.foldl registerConverter t
        = (l.filter (fun c => decide (c.factory ≠ .unknown))).foldl registerConverter t := by
  intro l
  induction l with
  | nil => intro t; simp
  | cons c cs ih =>
    intro t
    by_cases h : c.factory = .unknown
    · rw [List.foldl_cons, registerConverter_unknown h, ih]
      simp [List.filter_cons, h]
    · rw [List.foldl_cons, ih]
      simp [List.filter_cons, h]

/-! ### Claim theorems -/

/-- Claim C10: for every pair of identity lists, `filterIDs ins rem`
returns exactly the elements of `ins` equal to no element of `rem`,
preserving their relative order from `ins` with surviving duplicates kept
(it is the order-preserving filter), and returns the empty list when every
element of `ins` is removed.  Both arguments are read-only: the embedding
is a pure function that builds its result afresh. -/
theorem claimC10 (ins rem : List ID) :
    filterIDs ins rem = ins.filter (fun i => decide (i ∉ rem)) ∧
    ((∀ i ∈ ins, i ∈ rem) → filterIDs ins rem = []) := by
  refine ⟨filterIDs_eq_filter ins rem, ?_⟩
  intro h
  rw [filterIDs_eq_filter]
  rw [List.filter_eq_nil_iff]
  intro a ha
  simp [h a ha]

/-- Witness for C10 at a concrete input: the filter keeps `rcv/a` and drops
`rcv/b`, and a fully-removed list comes back empty. -/
theorem claimC10_witness :
    (filterIDs [⟨"rcv", "a"⟩, ⟨"rcv", "b"⟩] [⟨"rcv", "b"⟩]
        = List.filter (fun i => decide (i ∉ [(⟨"rcv", "b"⟩ : ID)])) [⟨"rcv", "a"⟩, ⟨"rcv", "b"⟩]) ∧
    filterIDs [⟨"rcv", "b"⟩] [⟨"rcv", "b"⟩] = [] ∧
    filterIDs [⟨"rcv", "a"⟩, ⟨"rcv", "b"⟩] [⟨"rcv", "b"⟩] = [⟨"rcv", "a"⟩] :=
  ⟨(claimC10 [⟨"rcv", "a"⟩, ⟨"rcv", "b"⟩] [⟨"rcv", "b"⟩]).1,
   (claimC10 [⟨"rcv", "b"⟩] [⟨"rcv", "b"⟩]).2 (by decide),
   by decide⟩

/-- Claim C5: when the caller-supplied override list contains a converter
declaring a (role, type) key, registry construction maps that key to the
first such override — the combined override-then-built-in list is resolved
first-registered-wins — and dispatching any component with that key invokes
exactly that override's conversion (its diagnostics and appended blocks),
never a built-in's. -/
theorem claimC5 (extras builtins : List ComponentConverter) (key : ConverterKey)
    (c : ComponentConverter) (h : extras.find? (declares key) = some c) :
    tableLookup (buildConverterTable extras builtins) key = some c ∧
    ∀ name, dispatchIDs (buildConverterTable extras builtins) key.kind [⟨key.typ, name⟩]
      = .ok (c.convDiags (key.kind, ⟨key.typ, name⟩),
             c.appendsOut (key.kind, ⟨key.typ, name⟩),
             [(key.kind, ⟨key.typ, name⟩)]) := by
  have hl : tableLookup (buildConverterTable extras builtins) key = some c := by
    rw [buildConverterTable_lookup, find?_append_cases, h]
  exact ⟨hl, fun name => dispatchIDs_singleton hl⟩

/-- Witness for C5: the override for (receiver, otlp) shadows the built-in
and is the converter a dispatch invokes. -/
theorem claimC5_witness :
    tableLookup (buildConverterTable [ovrConv] [bltConv]) ⟨Kind.receiver, "otlp"⟩ = some ovrConv ∧
    dispatchIDs (buildConverterTable [ovrConv] [bltConv]) Kind.receiver [⟨"otlp", "x"⟩]
      = .ok (ovrConv.convDiags (Kind.receiver, ⟨"otlp", "x"⟩),
             ovrConv.appendsOut (Kind.receiver, ⟨"otlp", "x"⟩),
             [(Kind.receiver, ⟨"otlp", "x"⟩)]) :=
  ⟨(claimC5 [ovrConv] [bltConv] ⟨Kind.receiver, "otlp"⟩ ovrConv rfl).1,
   (claimC5 [ovrConv] [bltConv] ⟨Kind.receiver, "otlp"⟩ ovrConv rfl).2 "x"⟩

/-- Claim C9: every converter in the combined list whose factory is a
connector factory causes the three keys (connector, type),
(exporter, type) and (receiver, type) to be occupied in the registry, each
resolved by first-registered-wins to the first converter in the combined
list declaring that key. -/
theorem claimC9 (extras builtins : List ComponentConverter) (c : ComponentConverter)
    (t : String) (hc : c ∈ extras ++ builtins) (hf : c.factory = .connector t) :
    ∀ kind ∈ [Kind.connector, Kind.exporter, Kind.receiver],
      ∃ c2, tableLookup (buildConverterTable extras builtins) ⟨kind, t⟩ = some c2 ∧
        (extras ++ builtins).find? (declares ⟨kind, t⟩) = some c2 := by
  intro kind hkind
  have hdecl : declares ⟨kind, t⟩ c = true := by
    simp only [List.mem_cons, List.not_mem_nil, or_false] at hkind
    rcases hkind with rfl | rfl | rfl <;>
      simp [declares, convKeys, hf, factoryKinds, Factory.typeName]
  rcases find?_isSome_of_mem _ c hc hdecl with ⟨c2, hc2⟩
  rw [buildConverterTable_lookup]
  exact ⟨c2, hc2, hc2⟩

/-- Witness for C9: a connector converter of type `fwd` occupies all three
roles in the registry. -/
theorem claimC9_witness :
    (∃ c2, tableLookup (buildConverterTable [] [cntConv]) ⟨Kind.connector, "fwd"⟩ = some c2 ∧
      ([] ++ [cntConv]).find? (declares ⟨Kind.connector, "fwd"⟩) = some c2) ∧
    (∃ c2, tableLookup (buildConverterTable [] [cntConv]) ⟨Kind.exporter, "fwd"⟩ = some c2 ∧
      ([] ++ [cntConv]).find? (declares ⟨Kind.exporter, "fwd"⟩) = some c2) ∧
    (∃ c2, tableLookup (buildConverterTable [] [cntConv]) ⟨Kind.receiver, "fwd"⟩ = some c2 ∧
      ([] ++ [cntConv]).find? (declares ⟨Kind.receiver, "fwd"⟩) = some c2) :=
  ⟨claimC9 [] [cntConv] cntConv "fwd" (by simp) rfl Kind.connector (by simp),
   claimC9 [] [cntConv] cntConv "fwd" (by simp) rfl Kind.exporter (by simp),
   claimC9 [] [cntConv] cntConv "fwd" (by simp) rfl Kind.receiver (by simp)⟩

/-- Claim C7: if reading the input document fails, or schema validation of
the read configuration fails, `Convert` returns no output together with
exactly one critical diagnostic describing the failure. -/
theorem claimC7 :
    (∀ (co : Collaborators) (builtins : List ComponentConverter) (input e : String),
      co.readConfig input = .error e →
      Convert co builtins input [] = .ok (none, [⟨.critical, e⟩])) ∧
    (∀ (co : Collaborators) (builtins : List ComponentConverter) (input : String)
      (cfg : Config) (err : String),
      co.readConfig input = .ok cfg → co.validateCfg cfg = some err →
      Convert co builtins input []
        = .ok (none, [⟨.critical, "failed to validate config: " ++ err⟩])) := by
  constructor
  · intro co builtins input e h
    simp [Convert, h]
  · intro co builtins input cfg err h1 h2
    simp [Convert, h1, h2]

/-- Witness for C7: a failing reader yields (nil, one critical "boom"); a
failing validator yields (nil, one critical validation message). -/
theorem claimC7_witness :
    Convert w3co [] "x" [] = .ok (none, [⟨.critical, "boom"⟩]) ∧
    Convert w7co [] "x" []
      = .ok (none, [⟨.critical, "failed to validate config: " ++ "bad"⟩]) :=
  ⟨claimC7.1 w3co [] "x" "boom" rfl, claimC7.2 w7co [] "x" w7cfg "bad" rfl rfl⟩

/-- Claim C8 (amended): a (role, type) lookup miss during dispatch is
program-fatal (a Go panic, modelled `.error`, distinct from diagnostics),
and an unknown factory-descriptor shape is program-fatal in `getFactories`
(the read-time factory set); but during converter-registry construction
(`buildConverterTable`) an unknown factory shape is silently skipped — the
table is the same as if the converter were absent — rather than fatal. -/
theorem claimC8 :
    (∀ (table : ConvTable) (kind : Kind) (ids : List ID),
      (∃ id ∈ ids, tableLookup table ⟨kind, id.typ⟩ = none) →
      ∃ e, dispatchIDs table kind ids = .error e) ∧
    (∀ convs : List ComponentConverter,
      (∃ c ∈ convs, c.factory = .unknown) → ∃ e, getFactories convs = .error e) ∧
    (∀ extras builtins : List ComponentConverter,
      buildConverterTable extras builtins
        = buildConverterTable (extras.filter (fun c => decide (c.factory ≠ .unknown)))
            (builtins.filter (fun c => decide (c.factory ≠ .unknown)))) := by
  refine ⟨fun table kind ids h => dispatchIDs_error_of_miss h,
    fun convs h => getFactoriesAux_error convs _ h, fun extras builtins => ?_⟩
  rw [buildConverterTable, buildConverterTable, foldl_register_filter_unknown,
    List.filter_append]

/-- Witness for C8: an empty table makes dispatch fatal; an unknown factory
makes `getFactories` fatal; filtering unknown factories away leaves the
built table unchanged. -/
theorem claimC8_witness :
    (∃ e, dispatchIDs [] Kind.receiver [⟨"otlp", ""⟩] = .error e) ∧
    (∃ e, getFactories [unknownConv] = .error e) ∧
    buildConverterTable [unknownConv] []
      = buildConverterTable (List.filter (fun c => decide (c.factory ≠ .unknown)) [unknownConv])
          (List.filter (fun c => decide (c.factory ≠ .unknown)) []) :=
  ⟨claimC8.1 [] Kind.receiver [⟨"otlp", ""⟩] ⟨⟨"otlp", ""⟩, by simp, rfl⟩,
   claimC8.2.1 [unknownConv] ⟨unknownConv, by simp, rfl⟩,
   claimC8.2.2 [unknownConv] []⟩

/-- Counterexample for C8 as stated: `getFactories` is indeed fatal on the
unknown factory shape, but `buildConverterTable` on the same converter
returns normally with an empty registry — the converter is silently
registered under no key, not surfaced as a program-fatal condition. -/
theorem claimC8_counterexample :
    getFactories [unknownConv] = .error "unknown component factory type" ∧
    buildConverterTable [] [unknownConv] = [] ∧ unknownConv.factory = .unknown :=
  ⟨rfl, rfl, rfl⟩

/-- Claim C2: whenever a non-connector receiver identity `r` lies in the
connector-filtered receiver sets of two different pipeline groups, the
validator emits a critical diagnostic naming `r` (by its `type/name`
rendering), and `AppendConfig`'s post-grouping stage returns exactly those
diagnostics with an empty output: no blocks are appended and no strategy is
invoked. -/
theorem claimC2 (l1 l2 l3 : List PipelineGroup) (g1 g2 : PipelineGroup)
    (connectorIDs exts : List ID) (table : ConvTable) (r : ID)
    (groups : List PipelineGroup)
    (hsplit : groups = l1 ++ g1 :: (l2 ++ g2 :: l3))
    (h1 : r ∈ filterIDs (groupReceivers g1) connectorIDs)
    (h2 : r ∈ filterIDs (groupReceivers g2) connectorIDs) :
    dupReceiverDiag r ∈ validateNoDuplicateReceivers groups connectorIDs ∧
    (dupReceiverDiag r).severity = .critical ∧
    appendConfigFromGroups groups connectorIDs exts table
      = .ok ⟨validateNoDuplicateReceivers groups connectorIDs, [], []⟩ := by
  subst hsplit
  have hcnt : 2 ≤ occCount r (flatOccurrences (l1 ++ g1 :: (l2 ++ g2 :: l3)) connectorIDs) := by
    rw [flatOccurrences_append, flatOccurrences, flatOccurrences_append, flatOccurrences]
    rw [occCount_append, occCount_append, occCount_append, occCount_append]
    have a1 := occCount_pos_of_mem h1
    have a2 := occCount_pos_of_mem h2
    omega
  have hmem : dupReceiverDiag r
      ∈ validateNoDuplicateReceivers (l1 ++ g1 :: (l2 ++ g2 :: l3)) connectorIDs := by
    rw [validateNoDuplicateReceivers_flat]
    exact vnrFlat_mem_dup _ [] [] r (Or.inl hcnt)
  refine ⟨hmem, rfl, ?_⟩
  have hne : validateNoDuplicateReceivers (l1 ++ g1 :: (l2 ++ g2 :: l3)) connectorIDs ≠ [] :=
    List.ne_nil_of_mem hmem
  rw [appendConfigFromGroups]
  simp only [hne, if_pos, ne_eq, not_false_eq_true]

/-- Witness for C2: receiver `otlp` shared by two singleton groups triggers
the critical duplicate diagnostic and an empty result. -/
theorem claimC2_witness :
    dupReceiverDiag w2r ∈ validateNoDuplicateReceivers [w2g1, w2g2] [] ∧
    (dupReceiverDiag w2r).severity = .critical ∧
    appendConfigFromGroups [w2g1, w2g2] [] [] []
      = .ok ⟨validateNoDuplicateReceivers [w2g1, w2g2] [], [], []⟩ :=
  claimC2 [] [] [] w2g1 w2g2 [] [] [] w2r [w2g1, w2g2] rfl (by decide) (by decide)

/-- Claim C6 (amended): the validator does not stop at the first repeat —
it emits one critical diagnostic per repeated occurrence: its diagnostic
count equals the number of already-seen occurrences in its scan of the
groups' connector-filtered receiver lists, and every diagnostic it emits is
the critical duplicate diagnostic naming an identity occurring at least
twice in that scan.  (Its caller then aborts conversion, see claimC2.) -/
theorem claimC6 (groups : List PipelineGroup) (connectorIDs : List ID) :
    (validateNoDuplicateReceivers groups connectorIDs).length
      = seenDupCount [] (flatOccurrences groups connectorIDs) ∧
    ∀ d ∈ validateNoDuplicateReceivers groups connectorIDs,
      ∃ r, d = dupReceiverDiag r ∧ d.severity = .critical ∧
        2 ≤ occCount r (flatOccurrences groups connectorIDs) := by
  constructor
  · rw [validateNoDuplicateReceivers_flat]
    simpa using vnrFlat_length (flatOccurrences groups connectorIDs) [] []
  · intro d hd
    rw [validateNoDuplicateReceivers_flat] at hd
    rcases vnrFlat_shape _ [] [] d hd with hin | ⟨r, hr, hcase⟩
    · simp at hin
    · rcases hcase with ⟨hu, _⟩ | hcnt
      · simp at hu
      · exact ⟨r, hr, by rw [hr]; rfl, hcnt⟩

/-- Witness for C6: the receiver `otlp/w6` claimed by three groups yields a
diagnostic count matching the repeat count, and the first emitted
diagnostic names a doubly-occurring identity. -/
theorem claimC6_witness :
    (validateNoDuplicateReceivers [w6g, w6g, w6g] []).length
        = seenDupCount [] (flatOccurrences [w6g, w6g, w6g] []) ∧
    (∃ r, dupReceiverDiag ⟨"otlp", "w6"⟩ = dupReceiverDiag r ∧
      (dupReceiverDiag ⟨"otlp", "w6"⟩).severity = .critical ∧
      2 ≤ occCount r (flatOccurrences [w6g, w6g, w6g] [])) :=
  ⟨(claimC6 [w6g, w6g, w6g] []).1,
   (claimC6 [w6g, w6g, w6g] []).2 (dupReceiverDiag ⟨"otlp", "w6"⟩) (by decide)⟩

/-- Counterexample for C6 as stated: with the receiver `otlp/w6` repeated
across three groups the validator emits two critical diagnostics, not
exactly one — it keeps scanning and reports every later repeat as well. -/
theorem claimC6_counterexample :
    (validateNoDuplicateReceivers [w6g, w6g, w6g] []).length = 2 ∧
    validateNoDuplicateReceivers [w6g, w6g, w6g] []
      = [dupReceiverDiag ⟨"otlp", "w6"⟩, dupReceiverDiag ⟨"otlp", "w6"⟩] := by
  constructor
  · rfl
  · rfl

/-- Claim C1 (amended): within a single `AppendConfig` call the dispatcher
invokes a strategy at most once per component identity within the extension
phase — its invocation trace has no duplicate (kind, id) pair provided the
activated-extensions list repeats no identity, which the Go loop itself
does not deduplicate — and at most once within each pipeline group's
dispatch, given that the connector key enumeration is duplicate-free
(always true of Go map keys); moreover every connector identity is invoked
in every group.  Consequently a connector is re-invoked once per group, so
the original at-most-once-per-`AppendConfig` guarantee fails for
configurations with several groups (see the counterexample). -/
theorem claimC1 (table : ConvTable) (connectorIDs exts : List ID) (g : PipelineGroup)
    (ed d : Diagnostics) (eb b : List OutputBlock) (et t : List (Kind × ID))
    (etbl : List (ID × String))
    (hext : exts.Nodup) (hnd : connectorIDs.Nodup)
    (hE : dispatchExtensions table exts = .ok (ed, eb, et, etbl))
    (hG : dispatchGroup table connectorIDs g = .ok (d, b, t)) :
    et.Nodup ∧ t.Nodup ∧ ∀ c ∈ connectorIDs, ((Kind.connector : Kind), c) ∈ t := by
  have hetrace := dispatchExtensions_ok_trace hE
  refine ⟨by rw [hetrace]; exact kindTrace_nodup hext, ?_⟩
  unfold dispatchGroup at hG
  cases h1 : dispatchIDs table .receiver (filterIDs (groupReceivers g) connectorIDs) with
  | error e => rw [h1] at hG; exact absurd hG (by simp)
  | ok r =>
    rw [h1] at hG
    cases h2 : dispatchIDs table .processor (groupProcessors g) with
    | error e => rw [h2] at hG; exact absurd hG (by simp)
    | ok p =>
      rw [h2] at hG
      cases h3 : dispatchIDs table .exporter (filterIDs (groupExporters g) connectorIDs) with
      | error e => rw [h3] at hG; exact absurd hG (by simp)
      | ok x =>
        rw [h3] at hG
        cases h4 : dispatchIDs table .connector connectorIDs with
        | error e => rw [h4] at hG; exact absurd hG (by simp)
        | ok c =>
          rw [h4] at hG
          rcases r with ⟨rd, rb, rt⟩
          rcases p with ⟨pd, pb, pt⟩
          rcases x with ⟨xd, xb, xt⟩
          rcases c with ⟨cd, cb, ct⟩
          simp only [Except.ok.injEq, Prod.mk.injEq] at hG
          obtain ⟨-, -, ht⟩ := hG
          rw [← ht]
          have hrt := dispatchIDs_ok_trace h1
          have hpt := dispatchIDs_ok_trace h2
          have hxt := dispatchIDs_ok_trace h3
          have hct := dispatchIDs_ok_trace h4
          subst hrt hpt hxt hct
          constructor
          · exact kindTrace_append_nodup (filterIDs_nodup _ (groupReceivers_nodup g))
              (groupProcessors_nodup g) (filterIDs_nodup _ (groupExporters_nodup g)) hnd
          · intro cid hcid
            have hm : ((Kind.connector : Kind), cid)
                ∈ connectorIDs.map (fun id => ((Kind.connector : Kind), id)) :=
              List.mem_map.mpr ⟨cid, hcid, rfl⟩
            exact List.mem_append_right _ hm

/-- Witness for C1 on the two-phase fixture: the extension phase's trace
and the first group's trace are each duplicate-free, and the group trace
contains the connector once. -/
theorem claimC1_witness :
    c1etrace.Nodup ∧ c1trace1.Nodup ∧ ((Kind.connector : Kind), c1conn) ∈ c1trace1 :=
  ⟨(claimC1 c1wtable [c1conn] [c1ext] c1group1 [] [] c1eblocks c1blocks1 c1etrace c1trace1
      c1etbl (by decide) (by decide) rfl rfl).1,
   (claimC1 c1wtable [c1conn] [c1ext] c1group1 [] [] c1eblocks c1blocks1 c1etrace c1trace1
      c1etbl (by decide) (by decide) rfl rfl).2.1,
   (claimC1 c1wtable [c1conn] [c1ext] c1group1 [] [] c1eblocks c1blocks1 c1etrace c1trace1
      c1etbl (by decide) (by decide) rfl rfl).2.2 c1conn (by decide)⟩

/-- Counterexample for C1 as stated: on a configuration with two pipeline
groups and the single connector `cnt`, one `AppendConfig` call invokes the
connector's strategy twice — once per group — and the connector's output
block is appended twice to the file, so a connector identity does not
appear at most once in the output graph. -/
theorem claimC1_counterexample :
    (AppendConfig c1cfg "" [] c1builtins).map
        (fun res => (res.trace.countP (fun e => decide (e = ((Kind.connector : Kind), c1conn))),
          res.blocks.countP (fun blk => decide (blk = (⟨"cnt", "cnt"⟩ : OutputBlock)))))
      = .ok (2, 2) := rfl

/-- Claim C4 (amended): `Convert` is deterministic once the connector-map
enumeration order is fixed; in particular, for configurations with at most
one connector, reading the same input twice (map-equal configurations,
same collaborators, same overrides) yields identical output and identical
diagnostics.  With two or more connectors the unspecified Go map iteration
order behind `maps.Keys(cfg.Connectors)` can reorder the output blocks
across runs (see the counterexample). -/
theorem claimC4 (co : Collaborators) (builtins : List ComponentConverter)
    (input : String) (extraArgs : List String) (cfg1 cfg2 : Config)
    (hsm : SameMap cfg1 cfg2) (hlen : cfg1.connectors.length ≤ 1) :
    Convert (withRead co cfg1) builtins input extraArgs
      = Convert (withRead co cfg2) builtins input extraArgs := by
  obtain ⟨h1, h2, h3, h4, h5, h6⟩ := hsm
  have h4eq := perm_eq_of_length_le_one h4 hlen
  have heq : cfg1 = cfg2 := by
    cases cfg1
    cases cfg2
    simp_all
  rw [heq]

/-- Witness for C4: a single-connector configuration converted twice gives
identical results. -/
theorem claimC4_witness :
    Convert (withRead plainCo c4wcfg) c4builtins "in" []
      = Convert (withRead plainCo c4wcfg) c4builtins "in" [] ∧
    c4wcfg.connectors.length ≤ 1 :=
  ⟨claimC4 plainCo c4builtins "in" [] c4wcfg c4wcfg
     ⟨rfl, rfl, rfl, List.Perm.refl _, rfl, rfl⟩ (by decide), by decide⟩

/-- Counterexample for C4 as stated: the two-connector configurations
`c4cfgA` and `c4cfgB` are the same input (map-equal, connector key sets
permuted as Go map iteration may do between two runs), yet `Convert`
produces different output bytes — the connector blocks are rendered in
enumeration order. -/
theorem claimC4_counterexample :
    SameMap c4cfgA c4cfgB ∧
    Convert (withRead plainCo c4cfgA) c4builtins "in" []
      ≠ Convert (withRead plainCo c4cfgB) c4builtins "in" [] := by
  refine ⟨⟨rfl, rfl, rfl, by decide, rfl, rfl⟩, ?_⟩
  intro h
  have h2 := congrArg convertOutStr h
  exact absurd h2 (by decide)

theorem appendConfigFromGroups_cases (groups : List PipelineGroup) (connectorIDs exts : List ID)
    (table : ConvTable) (res : AppendResult)
    (h : appendConfigFromGroups groups connectorIDs exts table = .ok res)
    (hT : ∀ key c, tableLookup table key = some c →
      ∀ x dg, dg ∈ c.convDiags x → dg.severity ≠ .critical) :
    (∀ dg ∈ res.diags, dg.severity ≠ .critical) ∨ res.blocks = [] := by
  simp only [appendConfigFromGroups] at h
  by_cases hdup : validateNoDuplicateReceivers groups connectorIDs ≠ []
  · rw [if_pos hdup] at h
    simp only [Except.ok.injEq] at h
    right
    rw [← h]
  · rw [if_neg hdup] at h
    cases hext : dispatchExtensions table exts with
    | error e => rw [hext] at h; exact absurd h (by simp)
    | ok eout =>
      rcases eout with ⟨ed, eb, et, etbl⟩
      rw [hext] at h
      cases hgrp : dispatchGroups table connectorIDs groups with
      | error e => rw [hgrp] at h; exact absurd h (by simp)
      | ok gout =>
        rcases gout with ⟨gd, gb, gt⟩
        rw [hgrp] at h
        simp only [Except.ok.injEq] at h
        left
        intro dg hdg
        rw [← h] at hdg
        have hdg2 : dg ∈ ed ++ gd := hdg
        rcases List.mem_append.mp hdg2 with hc | hc
        · exact dispatchExtensions_diags_from_table hT hext dg hc
        · exact dispatchGroups_diags_from_table hT hgrp dg hc

/-- Claim C3 (amended): when the conversion strategies, the output-node
validator and the pretty-printer emit no critical diagnostics of their own
(and an empty file renders to empty bytes, as `builder.File.WriteTo`
guarantees), any critical entry among `Convert`'s returned diagnostics
implies the returned output is empty: every critical produced by `Convert`
itself or by `AppendConfig`'s abort paths suppresses the output.  Without
those provisos the claim fails — `Convert` never re-checks the accumulated
diagnostics before returning rendered output (see the counterexample). -/
theorem claimC3 (co : Collaborators) (builtins : List ComponentConverter)
    (input : String) (extraArgs : List String) (out : Option String) (ds : Diagnostics)
    (hconv : ∀ c ∈ builtins, ∀ x dg, dg ∈ c.convDiags x → dg.severity ≠ .critical)
    (hvn : ∀ bs dg, dg ∈ co.validateNodes bs → dg.severity ≠ .critical)
    (hpp : ∀ s dg, dg ∈ (co.prettyPrint s).2 → dg.severity ≠ .critical)
    (hrender : co.render [] = .ok "")
    (hok : Convert co builtins input extraArgs = .ok (out, ds))
    (hcrit : ∃ dg ∈ ds, dg.severity = .critical) :
    out = none := by
  unfold Convert at hok
  by_cases hargs : extraArgs ≠ []
  · rw [if_pos hargs] at hok
    simp only [Except.ok.injEq, Prod.mk.injEq] at hok
    exact hok.1.symm
  · rw [if_neg hargs] at hok
    cases hread : co.readConfig input with
    | error e =>
      simp only [hread] at hok
      simp only [Except.ok.injEq, Prod.mk.injEq] at hok
      exact hok.1.symm
    | ok cfg =>
      simp only [hread] at hok
      cases hval : co.validateCfg cfg with
      | some e =>
        simp only [hval] at hok
        simp only [Except.ok.injEq, Prod.mk.injEq] at hok
        exact hok.1.symm
      | none =>
        simp only [hval] at hok
        cases happ : AppendConfig cfg "" [] builtins with
        | error e => simp only [happ] at hok; exact absurd hok (by simp)
        | ok res =>
          simp only [happ] at hok
          have hT : ∀ key c, tableLookup (buildConverterTable [] builtins) key = some c →
              ∀ x dg, dg ∈ c.convDiags x → dg.severity ≠ .critical := by
            intro key c hkc x dg hdg
            exact hconv c (tableValues_builtins hkc) x dg hdg
          have happ2 : appendConfigFromGroups (cfg.service.pipelines.foldl addPipelineToGroups [])
              cfg.connectors cfg.service.extensions (buildConverterTable [] builtins)
              = .ok res := happ
          have hres := appendConfigFromGroups_cases _ _ _ _ _ happ2 hT
          rcases hres with hnc | hempty
          · cases hrnd : co.render res.blocks with
            | error e =>
              simp only [hrnd] at hok
              simp only [Except.ok.injEq, Prod.mk.injEq] at hok
              exact hok.1.symm
            | ok buf =>
              simp only [hrnd] at hok
              by_cases hbuf : buf = ""
              · rw [if_pos hbuf] at hok
                simp only [Except.ok.injEq, Prod.mk.injEq] at hok
                exact hok.1.symm
              · rw [if_neg hbuf] at hok
                simp only [Except.ok.injEq, Prod.mk.injEq] at hok
                exfalso
                rcases hcrit with ⟨dg, hdg, hsev⟩
                rw [← hok.2] at hdg
                rcases List.mem_append.mp hdg with hc | hc
                · rcases List.mem_append.mp hc with hc2 | hc2
                  · exact hnc dg hc2 hsev
                  · exact hvn _ dg hc2 hsev
                · exact hpp _ dg hc hsev
          · simp only [hempty, hrender, if_true] at hok
            simp only [Except.ok.injEq, Prod.mk.injEq] at hok
            exact hok.1.symm

/-- Witness for C3: honest collaborators and a failing reader — the one
critical diagnostic comes with no output. -/
theorem claimC3_witness :
    Convert w3co [] "x" [] = .ok (none, [⟨.critical, "boom"⟩]) ∧ (none : Option String) = none :=
  ⟨rfl,
   claimC3 w3co [] "x" [] none [⟨.critical, "boom"⟩]
     (by intro c hc; simp at hc)
     (by intro bs dg hdg; simp [w3co] at hdg)
     (by intro s dg hdg; simp [w3co] at hdg)
     rfl rfl ⟨⟨.critical, "boom"⟩, by simp, rfl⟩⟩

/-- Counterexample for C3 as stated: a conversion strategy that appends a
block and returns a critical diagnostic makes `Convert` return that
critical diagnostic alongside non-empty output — `Convert` checks only the
rendered buffer's emptiness, never the diagnostics' severities. -/
theorem claimC3_counterexample :
    Convert (withRead plainCo c3cfg) c3builtins "in" []
      = .ok (some "rcv rcv/1\nexp exp/1\n", [⟨.critical, "unsupported feature"⟩]) ∧
    (⟨Severity.critical, "unsupported feature"⟩ : Diag).severity = .critical ∧
    some "rcv rcv/1\nexp exp/1\n" ≠ (none : Option String) :=
  ⟨rfl, rfl, by simp⟩
